import Mathlib

/-!
Verification of the user-list synchronization and stats-fetch workflow of the
github-stats client (src/App.tsx).  The data model and the operations below are
shallow embeddings of the source: the network is a function from the issued
request to its outcome, and every operation returns the list of requests it
issued alongside its result, so that which operations reach the network is
itself provable.
-/

namespace GithubStats

/-- Contribution counters returned by the remote API: the
contributionsCollection object with its five integer fields. -/
structure Stats where
  totalCommitContributions : Nat
  totalIssueContributions : Nat
  totalPullRequestContributions : Nat
  totalPullRequestReviewContributions : Nat
  totalRepositoryContributions : Nat
  deriving DecidableEq

/-- A tracked user entry: the source interface UserStats, with optional stats
and optional error. -/
structure UserStats where
  username : String
  stats : Option Stats := none
  error : Option String := none
  deriving DecidableEq

/-- A calendar date, kept as the ISO day string that toISOString yields before
the letter T. -/
structure DateT where
  isoDay : String
  deriving DecidableEq

/-- The observable content of the POST to the GraphQL endpoint: the three
values interpolated into the query. -/
structure Request where
  login : String
  fromIso : String
  toIso : String
  deriving DecidableEq

/-- The user object inside data.data: its contributionsCollection field may be
absent, modelled as none. -/
structure UserField where
  contributionsCollection : Option Stats
  deriving DecidableEq

/-- The data field of the parsed body; user is none when it is null or
absent. -/
structure DataField where
  user : Option UserField
  deriving DecidableEq

/-- A parsed JSON body: errors records the truthiness of the top-level errors
field (an absent field is falsy), dataField is none when the data field is
absent. -/
structure ParsedBody where
  errors : Bool
  dataField : Option DataField
  deriving DecidableEq

/-- Outcome of awaiting fetch and res.json: either one of the two awaits
throws, or a parsed body is obtained. -/
inductive FetchOutcome where
  | throwEx : FetchOutcome
  | parsed : ParsedBody → FetchOutcome
  deriving DecidableEq

/-- The network, as a function from the issued request to its outcome. -/
def Network : Type := Request → FetchOutcome

/-- The JS toLowerCase on a string, modelled characterwise. -/
def toLowerCase (s : String) : String :=
  String.mk (s.data.map Char.toLower)

/-- The JS split on the comma separator, on the character list of the string:
splitting the empty string yields one empty piece, and each comma closes the
piece before it. -/
def splitOnComma (cs : List Char) : List (List Char) :=
  match cs with
  | [] => [[]]
  | c :: rest =>
    let r := splitOnComma rest
    if c = ',' then [] :: r
    else
      match r with
      | [] => [[c]]
      | h :: t => (c :: h) :: t

/-- The JS trim: drop whitespace from both ends of the character list. -/
def trimChars (cs : List Char) : List Char :=
  ((cs.dropWhile Char.isWhitespace).reverse.dropWhile Char.isWhitespace).reverse

/-- A JavaScript runtime exception arising inside the try block. -/
inductive JsError where
  | typeError : JsError
  deriving DecidableEq

/-- Evaluation of the response inspection inside the try block.  The condition
data.errors short-circuits; when it is falsy, data.data.user is read, which
throws a TypeError when the data field is undefined.  In the success branch
stats receives data.data.user.contributionsCollection, which is undefined when
that field is absent. -/
def evalBody (username : String) (body : ParsedBody) : Except JsError UserStats :=
  if body.errors then
    Except.ok { username := username, error := some "User not found or API error." }
  else
    match body.dataField with
    | none => Except.error JsError.typeError
    | some d =>
      match d.user with
      | none => Except.ok { username := username, error := some "User not found or API error." }
      | some u => Except.ok { username := username, stats := u.contributionsCollection }

/-- The source function fetchUserStats: local validation first, then the
network call, with the whole call and response inspection under try/catch.
Returns the resulting entry together with the list of requests issued. -/
def fetchUserStats (username : String) (fromDate toDate : Option DateT)
    (net : Network) : UserStats × List Request :=
  match fromDate, toDate with
  | some f, some t =>
    if username.isEmpty then
      ({ username := username, error := some "Missing date or username" }, [])
    else
      let req : Request :=
        { login := username
          fromIso := f.isoDay ++ "T00:00:00Z"
          toIso := t.isoDay ++ "T23:59:59Z" }
      match net req with
      | FetchOutcome.throwEx =>
        ({ username := username, error := some "Network or API error." }, [req])
      | FetchOutcome.parsed body =>
        match evalBody username body with
        | Except.ok u => (u, [req])
        | Except.error _ =>
          ({ username := username, error := some "Network or API error." }, [req])
  | _, _ => ({ username := username, error := some "Missing date or username" }, [])

/-- The source handler handleAddUser: guard on username and both dates, then
fetch, then append inside the state updater under the duplicate check.
Returns the new list and the requests issued. -/
def handleAddUser (username : String) (fromDate toDate : Option DateT)
    (users : List UserStats) (net : Network) : List UserStats × List Request :=
  if username.isEmpty || fromDate.isNone || toDate.isNone then (users, [])
  else
    let fetched := fetchUserStats username fromDate toDate net
    let newUsers :=
      if users.any (fun u => toLowerCase u.username == toLowerCase username) then users
      else users ++ [fetched.fst]
    (newUsers, fetched.snd)

/-- The source handler handleRemoveUser: no-op on the empty username,
otherwise keep exactly the entries whose lowercased username differs. -/
def handleRemoveUser (username : String) (users : List UserStats) : List UserStats :=
  if username.isEmpty then users
  else users.filter (fun u => toLowerCase u.username != toLowerCase username)

/-- The parse of the VITE_GITHUB_USERS configuration string: split on commas,
trim each piece, drop the empty pieces. -/
def seedNames (envString : String) : List String :=
  ((splitOnComma envString.data).map (fun cs => String.mk (trimChars cs))).filter
    (fun s => !s.isEmpty)

/-- The seeding useEffect: when the parsed name list is non-empty, append every
parsed name whose lowercase form is not already in the list, as an entry with
neither stats nor error.  The effect body performs no fetch, so the issued
request list is empty. -/
def seedFromStaticList (envString : String) (users : List UserStats) :
    List UserStats × List Request :=
  let envUsers := seedNames envString
  if envUsers.length > 0 then
    let existing := users.map (fun u => toLowerCase u.username)
    let newUsers := (envUsers.filter (fun u => !existing.contains (toLowerCase u))).map
      (fun username => { username := username : UserStats })
    (users ++ newUsers, [])
  else (users, [])

/-- The refetch useEffect: guard on both dates and a non-empty list, then
Promise.all over a fetch of every current username, the list being replaced by
the results positionally. -/
def refreshAll (fromDate toDate : Option DateT) (users : List UserStats)
    (net : Network) : List UserStats × List Request :=
  if fromDate.isNone || toDate.isNone || users.length == 0 then (users, [])
  else
    let results := users.map (fun u => fetchUserStats u.username fromDate toDate net)
    (results.map Prod.fst, (results.map Prod.snd).flatten)

/-- A placeholder entry used only as the out-of-range default of positional
access. -/
def blankUser : UserStats := { username := "" }

/-- Promise.all modelled with an explicit completion schedule: the pending
results complete in the order listed, and each completed result is written
into its own slot of the output array, regardless of when it completes. -/
def collectByCompletion (n : Nat) (results : Nat → UserStats)
    (order : List Nat) : List UserStats :=
  order.foldl (fun acc i => acc.set i (results i)) (List.replicate n blankUser)

/-- refreshAll with the Promise.all collection made explicit: the fetch of the
username at slot i resolves at its place in the completion order, and its
result is stored at slot i. -/
def refreshAllSched (fromDate toDate : Option DateT) (users : List UserStats)
    (net : Network) (order : List Nat) : List UserStats :=
  if fromDate.isNone || toDate.isNone || users.length == 0 then users
  else
    collectByCompletion users.length
      (fun i => (fetchUserStats (users.getD i blankUser).username fromDate toDate net).fst)
      order

/-- The response shapes the remote contract recognizes, together with
transport failure: a truthy top-level error indicator, a null user, or a user
object carrying the counters. -/
def conformant (o : FetchOutcome) : Bool :=
  match o with
  | FetchOutcome.throwEx => true
  | FetchOutcome.parsed body =>
    body.errors ||
      (match body.dataField with
       | none => false
       | some d =>
         match d.user with
         | none => true
         | some u => u.contributionsCollection.isSome)

/-- An entry carries exactly one of stats and error. -/
def exactlyOne (u : UserStats) : Bool :=
  (u.stats.isSome && u.error.isNone) || (u.stats.isNone && u.error.isSome)


/-- A network on which every request fails at the transport level. -/
def netThrow : Network := fun _ => FetchOutcome.throwEx

/-- A network whose every response parses as JSON with a falsy errors field
and an absent data field. -/
def netMissingData : Network :=
  fun _ => FetchOutcome.parsed { errors := false, dataField := none }

/-- A sample date used in concrete instantiations. -/
def dJan1 : DateT := { isoDay := "2024-01-01" }

/-- A second sample date used in concrete instantiations. -/
def dJan31 : DateT := { isoDay := "2024-01-31" }

/-- C1, counterexample: invoking addUser with the username carol while
neither date of the range is set leaves the list empty, so the length does
not increase by 1 and no entry carrying the validation error appears. -/
theorem C1_add_without_dates_counterexample :
    (handleAddUser "carol" none none [] netThrow).fst = [] ∧
    (handleAddUser "carol" none none [] netThrow).fst.length ≠ 0 + 1 := by
  decide

/-- C1, amended: for every username and workflow state in which neither date
of the range is set, invoking addUser with that username is a guarded no-op:
the UserList is unchanged, no entry is appended, and no request is issued. -/
theorem C1_add_without_dates_noop (username : String) (users : List UserStats)
    (net : Network) : handleAddUser username none none users net = (users, []) := by
  simp [handleAddUser]

/-- C5: when the username is empty or either date of the range is unset,
fetchUserStats issues no network request and returns the entry carrying the
local validation error and no stats. -/
theorem C5_validation_precedes_network (username : String)
    (fromDate toDate : Option DateT) (net : Network)
    (h : username = "" ∨ fromDate = none ∨ toDate = none) :
    fetchUserStats username fromDate toDate net =
      ({ username := username, stats := none,
         error := some "Missing date or username" }, []) := by
  rcases h with h | h | h
  · subst h
    cases fromDate <;> cases toDate <;>
      simp [fetchUserStats, show "".isEmpty = true from rfl]
  · subst h
    cases toDate <;> simp [fetchUserStats]
  · subst h
    cases fromDate <;> simp [fetchUserStats]

/-- C5, witness at an unset from-date. -/
theorem C5_validation_witness :
    ("alice" = "" ∨ (none : Option DateT) = none ∨ some dJan1 = none) ∧
    fetchUserStats "alice" none (some dJan1) netThrow =
      ({ username := "alice", stats := none,
         error := some "Missing date or username" }, []) :=
  ⟨Or.inr (Or.inl rfl),
   C5_validation_precedes_network "alice" none (some dJan1) netThrow
     (Or.inr (Or.inl rfl))⟩

/-- C7: re-adding a username already present case-insensitively leaves the
list unchanged, in length and in order, whatever the date range and the
network do. -/
theorem C7_readd_idempotent (username : String) (fromDate toDate : Option DateT)
    (users : List UserStats) (net : Network)
    (h : ∃ u ∈ users, toLowerCase u.username = toLowerCase username) :
    (handleAddUser username fromDate toDate users net).fst = users := by
  unfold handleAddUser
  by_cases hg : (username.isEmpty || fromDate.isNone || toDate.isNone) = true
  · simp [hg]
  · have hany : users.any (fun u => toLowerCase u.username == toLowerCase username) = true := by
      rcases h with ⟨u, hu, he⟩
      exact List.any_eq_true.mpr ⟨u, hu, beq_iff_eq.mpr he⟩
    simp [hg, hany]

/-- C7, witness: re-adding Alice over a seeded alice changes nothing. -/
theorem C7_readd_witness :
    (∃ u ∈ [({ username := "alice" } : UserStats)],
        toLowerCase u.username = toLowerCase "Alice") ∧
    (handleAddUser "Alice" (some dJan1) (some dJan31)
        [{ username := "alice" }] netThrow).fst = [{ username := "alice" }] :=
  ⟨⟨{ username := "alice" }, by decide, by decide⟩,
   C7_readd_idempotent "Alice" (some dJan1) (some dJan31)
     [{ username := "alice" }] netThrow
     ⟨{ username := "alice" }, by decide, by decide⟩⟩

/-- C10: when every response parses as JSON with a falsy top-level errors
field and an absent data field, the read of data.data.user throws, the catch
absorbs it, and the result is the transport-error entry, not the user-not-
found one. -/
theorem C10_missing_data_caught (username : String) (f t : DateT) (net : Network)
    (hu : username.isEmpty = false)
    (hnet : ∀ req, net req = FetchOutcome.parsed { errors := false, dataField := none }) :
    (fetchUserStats username (some f) (some t) net).fst =
      { username := username, stats := none,
        error := some "Network or API error." } := by
  simp [fetchUserStats, hu, hnet, evalBody]

/-- C10, witness on the network that always answers with an empty JSON
object. -/
theorem C10_missing_data_witness :
    ("alice".isEmpty = false) ∧
    (fetchUserStats "alice" (some dJan1) (some dJan31) netMissingData).fst =
      { username := "alice", stats := none,
        error := some "Network or API error." } :=
  ⟨rfl, C10_missing_data_caught "alice" dJan1 dJan31 netMissingData rfl
    (fun _ => rfl)⟩

/-- Helper: when the username is empty or a date is unset, fetchUserStats
issues no request. -/
theorem fetchUserStats_snd_empty_of_invalid (username : String)
    (fromDate toDate : Option DateT) (net : Network)
    (h : (username.isEmpty || fromDate.isNone || toDate.isNone) = true) :
    (fetchUserStats username fromDate toDate net).snd = [] := by
  cases fromDate <;> cases toDate <;> simp [fetchUserStats]
  simp only [Option.isNone_some, Bool.or_false] at h
  simp [h]

/-- C3, counterexample: with alice already tracked, adding alice again leaves
the list unchanged but still issues the remote request, so the fetch is not
skipped for an already-present username. -/
theorem C3_duplicate_add_fetches_counterexample :
    (handleAddUser "alice" (some dJan1) (some dJan31)
        [{ username := "alice" }] netThrow).snd =
      [{ login := "alice", fromIso := "2024-01-01T00:00:00Z",
         toIso := "2024-01-31T23:59:59Z" }] ∧
    (handleAddUser "alice" (some dJan1) (some dJan31)
        [{ username := "alice" }] netThrow).fst = [{ username := "alice" }] := by
  decide

/-- C3, amended: a username already present case-insensitively is rejected
with the list left unchanged, but the remote fetch is performed anyway,
before the duplicate check: addUser issues exactly the requests that
fetchUserStats issues on the same inputs. -/
theorem C3_reject_keeps_list_but_fetches (username : String)
    (fromDate toDate : Option DateT) (users : List UserStats) (net : Network)
    (h : ∃ u ∈ users, toLowerCase u.username = toLowerCase username) :
    (handleAddUser username fromDate toDate users net).fst = users ∧
    (handleAddUser username fromDate toDate users net).snd =
      (fetchUserStats username fromDate toDate net).snd := by
  have hany : users.any (fun u => toLowerCase u.username == toLowerCase username) = true := by
    rcases h with ⟨u, hu, he⟩
    exact List.any_eq_true.mpr ⟨u, hu, beq_iff_eq.mpr he⟩
  unfold handleAddUser
  by_cases hg : (username.isEmpty || fromDate.isNone || toDate.isNone) = true
  · simp [hg]
    exact fetchUserStats_snd_empty_of_invalid username fromDate toDate net hg
  · simp [hg, hany]

/-- C3, amended, witness: alice present, both dates set, the list survives
and the issued requests are those of the fetch. -/
theorem C3_reject_witness :
    (∃ u ∈ [({ username := "alice" } : UserStats)],
        toLowerCase u.username = toLowerCase "alice") ∧
    (handleAddUser "alice" (some dJan1) (some dJan31)
        [{ username := "alice" }] netThrow).fst = [{ username := "alice" }] ∧
    (handleAddUser "alice" (some dJan1) (some dJan31)
        [{ username := "alice" }] netThrow).snd =
      (fetchUserStats "alice" (some dJan1) (some dJan31) netThrow).snd :=
  ⟨⟨{ username := "alice" }, by decide, by decide⟩,
   C3_reject_keeps_list_but_fetches "alice" (some dJan1) (some dJan31)
     [{ username := "alice" }] netThrow
     ⟨{ username := "alice" }, by decide, by decide⟩⟩

/-- C8: removing the empty username is a no-op; removing a non-empty username
yields a sublist of the original (relative order of survivors preserved) in
which entries matching case-insensitively are gone and every other entry
keeps its multiplicity. -/
theorem C8_remove_spec (username : String) (users : List UserStats) :
    (username.isEmpty = true → handleRemoveUser username users = users) ∧
    (username.isEmpty = false →
      (handleRemoveUser username users).Sublist users ∧
      ∀ u : UserStats, (handleRemoveUser username users).count u =
        if toLowerCase u.username = toLowerCase username then 0
        else users.count u) := by
  constructor
  · intro h
    simp [handleRemoveUser, h]
  · intro h
    constructor
    · simp only [handleRemoveUser, h, Bool.false_eq_true, if_false]
      exact List.filter_sublist users
    · intro u
      simp only [handleRemoveUser, h, Bool.false_eq_true, if_false]
      by_cases hc : toLowerCase u.username = toLowerCase username
      · rw [if_pos hc]
        refine List.count_eq_zero_of_not_mem ?_
        intro hm
        have hp := (List.mem_filter.mp hm).2
        simp [hc] at hp
      · rw [if_neg hc]
        refine List.count_filter ?_
        simp [hc]

/-- C8, witness: the empty username leaves a singleton list alone, and
removing Alice erases the entry seeded as alice. -/
theorem C8_remove_witness :
    handleRemoveUser "" [({ username := "alice" } : UserStats)] =
      [{ username := "alice" }] ∧
    (handleRemoveUser "Alice"
        [({ username := "alice" } : UserStats), { username := "bob" }]).count
        { username := "alice" } =
      (if toLowerCase ({ username := "alice" } : UserStats).username =
          toLowerCase "Alice" then 0
       else [({ username := "alice" } : UserStats), { username := "bob" }].count
         { username := "alice" }) :=
  ⟨(C8_remove_spec "" [{ username := "alice" }]).1 rfl,
   ((C8_remove_spec "Alice" [{ username := "alice" }, { username := "bob" }]).2
     rfl).2 { username := "alice" }⟩

/-- C6: for every input and, under the response shapes the remote contract
recognizes (transport failure, API-level error, absent user, or a user
object carrying the counters), every behaviour of the remote call, the
result of fetchUserStats carries exactly one of stats and error.  The
embedding is a total function whose internal throws are absorbed by the
catch, so no exception reaches the caller. -/
theorem C6_exactly_one_of_stats_error (username : String)
    (fromDate toDate : Option DateT) (net : Network)
    (h : ∀ req, conformant (net req) = true) :
    exactlyOne (fetchUserStats username fromDate toDate net).fst = true := by
  cases fromDate with
  | none => cases toDate <;> simp [fetchUserStats, exactlyOne]
  | some f =>
    cases toDate with
    | none => simp [fetchUserStats, exactlyOne]
    | some t =>
      cases he : username.isEmpty with
      | true => simp [fetchUserStats, he, exactlyOne]
      | false =>
        simp only [fetchUserStats, he, Bool.false_eq_true, if_false]
        have h1 := h { login := username,
                       fromIso := f.isoDay ++ "T00:00:00Z",
                       toIso := t.isoDay ++ "T23:59:59Z" }
        cases hn : net { login := username,
                         fromIso := f.isoDay ++ "T00:00:00Z",
                         toIso := t.isoDay ++ "T23:59:59Z" } with
        | throwEx => simp [exactlyOne]
        | parsed body =>
          rw [hn] at h1
          cases hb : body.errors with
          | true => simp [evalBody, hb, exactlyOne]
          | false =>
            cases hd : body.dataField with
            | none => simp [conformant, hb, hd] at h1
            | some d =>
              cases hu : d.user with
              | none => simp [evalBody, hb, hd, hu, exactlyOne]
              | some u =>
                simp only [conformant, hb, hd, hu, Bool.false_or] at h1
                obtain ⟨s, hs⟩ := Option.isSome_iff_exists.mp h1
                simp [evalBody, hb, hd, hu, hs, exactlyOne]

/-- C6, witness on a transport-failing network with valid inputs. -/
theorem C6_exactly_one_witness :
    exactlyOne (fetchUserStats "alice" (some dJan1) (some dJan31) netThrow).fst = true :=
  C6_exactly_one_of_stats_error "alice" (some dJan1) (some dJan31) netThrow
    (fun _ => rfl)

/-- C9: seeding keeps the existing entries unchanged in place, appends
exactly the parsed names (split on commas, trimmed, empties discarded) whose
lowercase form is not already present among the existing usernames, each
appended entry carrying neither stats nor error, and issues no fetch. -/
theorem C9_seed_spec (envString : String) (users : List UserStats) :
    ((seedFromStaticList envString users).fst.take users.length = users) ∧
    ((seedFromStaticList envString users).fst.drop users.length =
      ((seedNames envString).filter (fun name =>
          !(users.map (fun u => toLowerCase u.username)).contains
            (toLowerCase name))).map
        (fun name => { username := name, stats := none, error := none })) ∧
    ((seedFromStaticList envString users).snd = []) := by
  unfold seedFromStaticList
  by_cases hl : (seedNames envString).length > 0
  · exact ⟨by simp [hl], by simp [hl], by simp [hl]⟩
  · have h0 : seedNames envString = [] :=
      List.length_eq_zero.mp (Nat.eq_zero_of_not_pos hl)
    simp [hl, h0]

/-- Helper: writing completed results into their slots never changes the
length of the accumulator. -/
theorem collect_foldl_length (results : Nat → UserStats) :
    ∀ (order : List Nat) (acc : List UserStats),
      (order.foldl (fun acc i => acc.set i (results i)) acc).length = acc.length := by
  intro order
  induction order with
  | nil => intro acc; rfl
  | cons i rest ih =>
    intro acc
    rw [List.foldl_cons, ih, List.length_set]

/-- Helper: after all completions are written, a slot named anywhere in the
completion order holds its own result, and any other slot is untouched. -/
theorem collect_foldl_getElem (results : Nat → UserStats) :
    ∀ (order : List Nat) (acc : List UserStats) (j : Nat), j < acc.length →
      (order.foldl (fun acc i => acc.set i (results i)) acc)[j]? =
        if j ∈ order then some (results j) else acc[j]? := by
  intro order
  induction order with
  | nil =>
    intro acc j hj
    simp
  | cons i rest ih =>
    intro acc j hj
    rw [List.foldl_cons,
      ih (acc.set i (results i)) j (by rw [List.length_set]; exact hj)]
    by_cases hjr : j ∈ rest
    · simp [hjr, List.mem_cons]
    · by_cases hij : i = j
      · subst hij
        simp [List.getElem?_set, hj, List.mem_cons, hjr]
      · rw [List.getElem?_set]
        simp [hij, List.mem_cons, hjr, Ne.symm hij]

/-- Helper: assembling a permutation of the slots yields every result at its
own position, however the completions were ordered. -/
theorem collectByCompletion_perm (results : Nat → UserStats) (n : Nat)
    (order : List Nat) (h : order.Perm (List.range n)) :
    collectByCompletion n results order = (List.range n).map results := by
  apply List.ext_getElem?
  intro j
  by_cases hj : j < n
  · unfold collectByCompletion
    rw [collect_foldl_getElem results order _ j
      (by rw [List.length_replicate]; exact hj)]
    have hmem : j ∈ order := h.mem_iff.mpr (List.mem_range.mpr hj)
    rw [if_pos hmem, List.getElem?_map, List.getElem?_range hj]
    rfl
  · have h1 : (collectByCompletion n results order).length ≤ j := by
      unfold collectByCompletion
      rw [collect_foldl_length, List.length_replicate]
      exact Nat.le_of_not_lt hj
    have h2 : ((List.range n).map results).length ≤ j := by
      rw [List.length_map, List.length_range]
      exact Nat.le_of_not_lt hj
    rw [List.getElem?_eq_none h1, List.getElem?_eq_none h2]

/-- Helper: reading each position of a list through its index enumerates the
list itself. -/
theorem range_map_getD (users : List UserStats) (g : UserStats → UserStats) :
    (List.range users.length).map (fun i => g (users.getD i blankUser)) =
      users.map g := by
  apply List.ext_getElem?
  intro j
  by_cases hj : j < users.length
  · rw [List.getElem?_map, List.getElem?_map, List.getElem?_range hj,
      List.getElem?_eq_getElem hj]
    simp only [Option.map_some']
    rw [List.getD_eq_getElem users blankUser hj]
  · have h1 : ((List.range users.length).map
        (fun i => g (users.getD i blankUser))).length ≤ j := by
      rw [List.length_map, List.length_range]
      exact Nat.le_of_not_lt hj
    have h2 : (users.map g).length ≤ j := by
      rw [List.length_map]
      exact Nat.le_of_not_lt hj
    rw [List.getElem?_eq_none h1, List.getElem?_eq_none h2]

/-- C4: for every list and every permutation of the completion order of the
parallel fetches, the refreshed list is the pre-refresh list with each entry
replaced positionally by the fetch result for its own username; the
scheduled model agrees with the positional replacement refreshAll
performs. -/
theorem C4_refresh_order_preserved (f t : DateT) (users : List UserStats)
    (net : Network) (order : List Nat)
    (h : order.Perm (List.range users.length)) :
    refreshAllSched (some f) (some t) users net order =
      users.map (fun u => (fetchUserStats u.username (some f) (some t) net).fst) ∧
    (refreshAll (some f) (some t) users net).fst =
      users.map (fun u => (fetchUserStats u.username (some f) (some t) net).fst) := by
  constructor
  · unfold refreshAllSched
    by_cases h0 : users.length = 0
    · have hnil : users = [] := List.length_eq_zero.mp h0
      subst hnil
      simp
    · have h0b : (users.length == 0) = false := by simpa using h0
      simp only [Option.isNone_some, Bool.or_self, Bool.false_or, h0b,
        Bool.or_false, Bool.false_eq_true, if_false]
      rw [collectByCompletion_perm _ _ _ h]
      exact range_map_getD users
        (fun u => (fetchUserStats u.username (some f) (some t) net).fst)
  · unfold refreshAll
    by_cases h0 : users.length = 0
    · have hnil : users = [] := List.length_eq_zero.mp h0
      subst hnil
      simp
    · have h0b : (users.length == 0) = false := by simpa using h0
      simp only [Option.isNone_some, Bool.or_self, Bool.false_or, h0b,
        Bool.or_false, Bool.false_eq_true, if_false]
      rw [List.map_map]
      rfl

/-- C4, witness: three users refreshed with completion order 2, 0, 1 still
produce the list in its original order. -/
theorem C4_refresh_witness :
    refreshAllSched (some dJan1) (some dJan31)
        [{ username := "alice" }, { username := "bob" }, { username := "carol" }]
        netThrow [2, 0, 1] =
      ([{ username := "alice" }, { username := "bob" },
        { username := "carol" }] : List UserStats).map
        (fun u => (fetchUserStats u.username (some dJan1) (some dJan31) netThrow).fst) :=
  (C4_refresh_order_preserved dJan1 dJan31
    [{ username := "alice" }, { username := "bob" }, { username := "carol" }]
    netThrow [2, 0, 1] (by decide)).1

/-- Helper: a successful evaluation of the response body yields an entry for
the username it was given. -/
theorem evalBody_username (username : String) (body : ParsedBody) (u : UserStats)
    (h : evalBody username body = Except.ok u) : u.username = username := by
  unfold evalBody at h
  split at h
  · cases h
    rfl
  · split at h
    · cases h
    · split at h
      · cases h
        rfl
      · cases h
        rfl

/-- Helper: every branch of fetchUserStats returns an entry for the username
it was asked about. -/
theorem fetchUserStats_fst_username (username : String)
    (fromDate toDate : Option DateT) (net : Network) :
    (fetchUserStats username fromDate toDate net).fst.username = username := by
  cases fromDate with
  | none => cases toDate <;> rfl
  | some f =>
    cases toDate with
    | none => rfl
    | some t =>
      cases he : username.isEmpty with
      | true => simp [fetchUserStats, he]
      | false =>
        simp only [fetchUserStats, he, Bool.false_eq_true, if_false]
        cases hn : net { login := username,
                         fromIso := f.isoDay ++ "T00:00:00Z",
                         toIso := t.isoDay ++ "T23:59:59Z" } with
        | throwEx => rfl
        | parsed body =>
          cases hev : evalBody username body with
          | error e =>
            simp [hev]
          | ok u =>
            simp [hev]
            exact evalBody_username username body u hev

/-- C2, counterexample: seeding the empty list from the configuration string
alice,Alice produces two entries with the same lowercased username, so the
case-insensitive uniqueness invariant is broken by seeding alone. -/
theorem C2_seed_duplicate_counterexample :
    ((seedFromStaticList "alice,Alice" []).fst.map
      (fun u => toLowerCase u.username)) = ["alice", "alice"] ∧
    ¬ ((seedFromStaticList "alice,Alice" []).fst.map
      (fun u => toLowerCase u.username)).Nodup := by
  decide

/-- C2, amended: on a list whose lowercased usernames are distinct, addUser,
removeUser and refreshAll preserve the case-insensitive uniqueness
invariant; seeding preserves it only when the parsed names of the
configuration string are themselves distinct after lowercasing — a
configuration string repeating a name (such as alice,Alice) breaks it,
since the seed filter checks the parsed names against the existing entries
but not against each other. -/
theorem C2_unique_usernames_preserved (users : List UserStats)
    (hu : (users.map (fun u => toLowerCase u.username)).Nodup) :
    (∀ username fromDate toDate net,
      ((handleAddUser username fromDate toDate users net).fst.map
        (fun u => toLowerCase u.username)).Nodup) ∧
    (∀ username,
      ((handleRemoveUser username users).map
        (fun u => toLowerCase u.username)).Nodup) ∧
    (∀ fromDate toDate net,
      ((refreshAll fromDate toDate users net).fst.map
        (fun u => toLowerCase u.username)).Nodup) ∧
    (∀ envString, ((seedNames envString).map toLowerCase).Nodup →
      ((seedFromStaticList envString users).fst.map
        (fun u => toLowerCase u.username)).Nodup) := by
  refine ⟨?_, ?_, ?_, ?_⟩
  · intro username fromDate toDate net
    unfold handleAddUser
    by_cases hg : (username.isEmpty || fromDate.isNone || toDate.isNone) = true
    · simpa [hg] using hu
    · have hg2 : (username.isEmpty || fromDate.isNone || toDate.isNone) = false :=
        Bool.eq_false_iff.mpr hg
      simp only [hg2, Bool.false_eq_true, if_false]
      cases hd : users.any (fun u => toLowerCase u.username == toLowerCase username) with
      | true => simp only [hd, if_true]; exact hu
      | false =>
        simp only [Bool.false_eq_true, if_false, List.map_append, List.nodup_append]
        refine ⟨hu, by simp, ?_⟩
        intro a ha hb
        simp only [List.map_cons, List.map_nil, List.mem_singleton,
          fetchUserStats_fst_username] at hb
        rcases List.mem_map.mp ha with ⟨u, hmem, hkey⟩
        have hne := List.any_eq_false.mp hd u hmem
        rw [beq_iff_eq] at hne
        exact hne (by rw [hkey, hb])
  · intro username
    unfold handleRemoveUser
    by_cases he : username.isEmpty = true
    · simpa [he] using hu
    · have he2 : username.isEmpty = false := Bool.eq_false_iff.mpr he
      simp only [he2, Bool.false_eq_true, if_false]
      exact List.Nodup.sublist
        (List.Sublist.map (fun u => toLowerCase u.username)
          (List.filter_sublist users)) hu
  · intro fromDate toDate net
    unfold refreshAll
    by_cases hg : (fromDate.isNone || toDate.isNone || users.length == 0) = true
    · simpa [hg] using hu
    · have hg2 : (fromDate.isNone || toDate.isNone || users.length == 0) = false :=
        Bool.eq_false_iff.mpr hg
      simp only [hg2, Bool.false_eq_true, if_false, List.map_map]
      have hsame : users.map ((fun u => toLowerCase u.username) ∘ Prod.fst ∘
          (fun u => fetchUserStats u.username fromDate toDate net)) =
          users.map (fun u => toLowerCase u.username) := by
        refine List.map_congr_left ?_
        intro u _
        simp [Function.comp, fetchUserStats_fst_username]
      rw [hsame]
      exact hu
  · intro envString hseed
    unfold seedFromStaticList
    by_cases hl : (seedNames envString).length > 0
    · simp only [hl, if_pos, List.map_append, List.nodup_append]
      refine ⟨hu, ?_, ?_⟩
      · rw [List.map_map]
        exact List.Nodup.sublist
          (List.Sublist.map toLowerCase (List.filter_sublist (seedNames envString)))
          hseed
      · intro a ha hb
        rw [List.map_map] at hb
        rcases List.mem_map.mp hb with ⟨name, hname, hkey⟩
        have hnc := (List.mem_filter.mp hname).2
        simp only [Bool.not_eq_eq_eq_not, Bool.not_true] at hnc
        have : toLowerCase name ∈ users.map (fun u => toLowerCase u.username) := by
          rw [show toLowerCase name = a from hkey]
          exact ha
        simp [this] at hnc
    · have h0 : seedNames envString = [] :=
        List.length_eq_zero.mp (Nat.eq_zero_of_not_pos hl)
      simpa [hl, h0] using hu

/-- C2, amended, witness: a seed with distinct parsed names over a distinct
list keeps the lowercased usernames distinct. -/
theorem C2_unique_witness :
    ((seedFromStaticList "alice, carol" [{ username := "bob" }]).fst.map
      (fun u => toLowerCase u.username)).Nodup :=
  (C2_unique_usernames_preserved [{ username := "bob" }] (by decide)).2.2.2
    "alice, carol" (by decide)

end GithubStats
